import Mathlib

/-!
Shallow embedding of `simplescraper.py` (SimpleScraper repository).

Strings are modelled as `List Char` (`Str`), so that every operation is a
computable structural recursion and concrete runs evaluate with `decide`.
External collaborators (the HTTP client `requests`, the `BeautifulSoup`
parser, `urllib.parse.urljoin`, the `re` regex compiler and the filesystem)
are modelled as explicit capabilities passed in an `Env` record; the code
under verification is everything written in `simplescraper.py` itself.
-/

set_option autoImplicit false

namespace Scraper

/-- Byte/character strings of the Python program. -/
abbrev Str : Type := List Char

/-- Embed a Lean string literal as a `Str`. -/
def str (s : String) : Str := s.data

instance {ε α : Type} [DecidableEq ε] [DecidableEq α] : DecidableEq (Except ε α) :=
  fun x y =>
    match x, y with
    | .ok a, .ok b =>
      if h : a = b then isTrue (by rw [h]) else
        isFalse (fun hc => h (Except.ok.inj hc))
    | .error a, .error b =>
      if h : a = b then isTrue (by rw [h]) else
        isFalse (fun hc => h (Except.error.inj hc))
    | .ok _, .error _ => isFalse (fun hc => Except.noConfusion hc)
    | .error _, .ok _ => isFalse (fun hc => Except.noConfusion hc)

/-- Fuel-driven worker for Python `s.split(sep)` with a non-empty separator
`c0 :: sep'`.  `acc` is the chunk accumulated so far.  The fuel is always
instantiated with `s.length + 1`, which is enough for the scan to finish. -/
def splitGoF (c0 : Char) (sep' : Str) : Nat → Str → Str → List Str
  | 0, acc, s => [acc ++ s]
  | fuel + 1, acc, s =>
    if (c0 :: sep').isPrefixOf s then
      acc :: splitGoF c0 sep' fuel [] (s.drop (sep'.length + 1))
    else
      match s with
      | [] => [acc]
      | c :: cs => splitGoF c0 sep' fuel (acc ++ [c]) cs

/-- Python `s.split(sep)` for a string separator.  For an empty separator the
Python call raises; the code never does that, and we return `[s]` there. -/
def pySplitOn (sep : Str) (s : Str) : List Str :=
  match sep with
  | [] => [s]
  | c :: cs => splitGoF c cs (s.length + 1) [] s

/-- Join a list of strings with a separator (inverse image of `pySplitOn`,
used to state round-trip properties and to model flattened paths). -/
def joinSep (sep : Str) : List Str → Str
  | [] => []
  | [x] => x
  | x :: xs => x ++ sep ++ joinSep sep xs

/-- Python `s.split()` (whitespace split dropping empty chunks); this is how
BeautifulSoup produces the multi-valued `rel` attribute list. -/
def splitWs (s : Str) : List Str :=
  (List.splitOnP (fun c => c.isWhitespace) s).filter (fun p => p ≠ [])

/-- Behaviour of `re.sub` with an empty (escaped) pattern: the replacement is
inserted at every position of the subject string. -/
def insertEverywhere (repl : Str) : Str → Str
  | [] => repl
  | c :: cs => repl ++ c :: insertEverywhere repl cs

/-- Fuel-driven worker for literal search-and-replace of the non-empty
pattern `p :: pr` (Python `re.sub(re.escape(pat), repl, s)`): leftmost,
non-overlapping occurrences are replaced. -/
def replAllGo (p : Char) (pr repl : Str) : Nat → Str → Str
  | 0, s => s
  | fuel + 1, s =>
    if (p :: pr).isPrefixOf s then
      repl ++ replAllGo p pr repl fuel (s.drop (pr.length + 1))
    else
      match s with
      | [] => []
      | c :: cs => c :: replAllGo p pr repl fuel cs

/-- `re.sub(re.escape(pat), repl, s)`: since the pattern is escaped it is a
literal search key.  An empty key makes `re.sub` insert the replacement at
every position (Python semantics). -/
def replaceAll (pat repl s : Str) : Str :=
  match pat with
  | [] => insertEverywhere repl s
  | p :: pr => replAllGo p pr repl (s.length + 1) s

/-- Worker for `url[url.index(':') + 1:]`: drop everything up to and
including the first colon. -/
def dropThroughColon : Str → Str
  | [] => []
  | c :: cs => if c = ':' then cs else dropThroughColon cs

/-- Line 88 of the source: `url[url.index(':') + 1:] if ':' in url else url`. -/
def cutScheme (s : Str) : Str :=
  if ':' ∈ s then dropThroughColon s else s

/-- Python `s.strip('/')`: remove leading and trailing slashes. -/
def stripSlashes (s : Str) : Str :=
  ((s.dropWhile (fun c => c = '/')).reverse.dropWhile (fun c => c = '/')).reverse

/-- Python `s.replace('/', '_')` (single-character replacement is a map). -/
def slashToUnderscore (s : Str) : Str :=
  s.map (fun c => if c = '/' then '_' else c)

/-- Model of `re.sub(r'(?<=EXT)(\?[^/]+)$', '', s)` for a literal lookbehind
text `ext`:  scan for the leftmost position whose already-consumed prefix
`acc` ends with `ext`, whose current character is `?`, and whose remaining
characters are non-empty and contain no `/` (so the match can extend to the
end anchor); everything from that `?` on is removed. -/
def stripQAux (ext : Str) (acc : Str) : Str → Str
  | [] => acc
  | c :: cs =>
    if c = '?' ∧ ext.isSuffixOf acc = true ∧ cs ≠ [] ∧ '/' ∉ cs then acc
    else stripQAux ext (acc ++ [c]) cs

/-- Lines 85-94 of the source: `get_usable_filename_from_url`. -/
def get_usable_filename_from_url (url : Str) : Str :=
  let cleaned_url := slashToUnderscore (stripSlashes (cutScheme url))
  let cleaned_url := stripQAux (str ".css") [] cleaned_url
  let cleaned_url := stripQAux (str ".js") [] cleaned_url
  cleaned_url

/-- A parsed markup tag: its name and its attributes as they appear in the
markup (attribute values kept raw; multi-valued access is modelled at the
lookup level, as BeautifulSoup does). -/
structure Tag where
  name : Str
  attrs : List (Str × Str)
deriving DecidableEq, Repr

/-- BeautifulSoup `tag.has_attr(a)`. -/
def hasAttr (t : Tag) (a : Str) : Bool :=
  t.attrs.any (fun p => p.1 = a)

/-- Raw attribute lookup (first occurrence, as the parser keeps). -/
def attrRaw (t : Tag) (a : Str) : Option Str :=
  (t.attrs.find? (fun p => p.1 = a)).map (fun p => p.2)

/-- BeautifulSoup `tag[a]` for a single-valued attribute: raises `KeyError`
when the attribute is absent. -/
def attrGet (t : Tag) (a : Str) : Except String Str :=
  match attrRaw t a with
  | some v => .ok v
  | none => .error "KeyError"

/-- BeautifulSoup `tag['rel']`: `rel` is a multi-valued attribute under
`html.parser`, returned as the whitespace-split token list. -/
def relValue (t : Tag) : Option (List Str) :=
  (attrRaw t (str "rel")).map splitWs

/-- An HTTP response as the code observes it: `status_code`, the final
`response.url` after redirects, and the body bytes (`content`). -/
structure FetchResult where
  status : Nat
  url : Str
  content : Str
deriving DecidableEq, Repr

/-- External collaborators of the script, passed explicitly:
`get` is `session.get` (an exception is an `.error`), `parse` is
`BeautifulSoup(content, 'html.parser')` flattened to the tag list that
`find_all` traverses, `urljoin` is `urllib.parse.urljoin`, and
`regexCompile` is `re.compile` returning a search capability on success. -/
structure Env where
  get : Str → Except String FetchResult
  parse : Str → List Tag
  urljoin : Str → Str → Str
  regexCompile : Str → Option (Str → Bool)

/-- Command-line arguments that `copy_page` consumes. -/
structure Args where
  ignore_js : Bool
  zip : Bool
  ignore : Option Str
deriving DecidableEq, Repr

/-! ### Lines 16-33: `get_retry` -/

/-- Worker for the `for retry_no in range(max_retries)` loop of `get_retry`.
`attempts i` is the outcome of the `i`-th `s.get` call; `i` is the current
`retry_no` and the structural argument is the number of loop iterations
remaining.  On success the returned pair also carries the total number of
GET attempts performed (`i + 1` when the loop exits at index `i`).
With no iterations left, Python's `return r` raises `UnboundLocalError`.
In the last iteration (`retry_no == max_retries - 1`) an exception is
re-raised, and any obtained response is returned whatever its status; in
earlier iterations an exception sets a dummy response with status 0, and the
loop continues unless the status test `r.status_code == 200` passes. -/
def get_retryGo (attempts : Nat → Except String FetchResult) (i : Nat) :
    Nat → Except String (FetchResult × Nat)
  | 0 => .error "UnboundLocalError"
  | 1 =>
    match attempts i with
    | .ok r => .ok (r, i + 1)
    | .error e => .error e
  | remaining + 2 =>
    match attempts i with
    | .ok r =>
      if r.status = 200 then .ok (r, i + 1)
      else get_retryGo attempts (i + 1) (remaining + 1)
    | .error _ => get_retryGo attempts (i + 1) (remaining + 1)

/-- Lines 16-33 of the source: `get_retry(*args, session, max_retries)`,
abstracted over the sequence of outcomes of the underlying `s.get` calls.
Returns the chosen response together with the number of attempts made. -/
def get_retry (attempts : Nat → Except String FetchResult)
    (max_retries : Nat) : Except String (FetchResult × Nat) :=
  get_retryGo attempts 0 max_retries

/-! ### Lines 36-82: the resource extractors -/

/-- Lines 36-41 of the source, per attribute value:
`[i.split(" ")[0] for i in raw_srcset.split(", ")]`.  (`split` never returns
an empty list, so indexing with `[0]` is total; `headD` reflects that.) -/
def srcsetUrlsOfValue (raw_srcset : Str) : List Str :=
  (pySplitOn (str ", ") raw_srcset).map (fun i => (pySplitOn (str " ") i).headD [])

/-- Lines 36-41 of the source: `get_srcset_urls_from_tags(tags)`.  The list
comprehension guarded by `has_attr('srcset')` is the `filterMap` of the raw
lookup; `sum(xss, [])` is `join`. -/
def get_srcset_urls_from_tags (tags : List Tag) : List Str :=
  ((tags.filterMap (fun t => attrRaw t (str "srcset"))).map srcsetUrlsOfValue).flatten

/-- BeautifulSoup `soup.find_all(name)` over the flattened tag list. -/
def find_all (soup : List Tag) (nm : String) : List Tag :=
  soup.filter (fun t => t.name = str nm)

/-- The resolution step shared by all extractors (lines 51, 63, 72, 81):
`(urljoin(response.url, src), src) if not src.startswith('http') else (src, src)`. -/
def resolveLinks (urljoin : Str → Str → Str) (respUrl : Str)
    (srcs : List Str) : List (Str × Str) :=
  srcs.map (fun src =>
    if !(str "http").isPrefixOf src then (urljoin respUrl src, src) else (src, src))

/-- Lines 44-53 of the source: `get_img_links(soup, response)`.  `list(set(_))`
is modelled as `dedup` (the set's iteration order is unspecified in Python;
membership is what the claims use). -/
def get_img_links (urljoin : Str → Str → Str) (soup : List Tag)
    (response : FetchResult) : List (Str × Str) :=
  let imgs := find_all soup "img"
  let img_srcs := imgs.filterMap (fun t => attrRaw t (str "src"))
  let img_srcsets := get_srcset_urls_from_tags imgs
  (resolveLinks urljoin response.url (img_srcs ++ img_srcsets)).dedup

/-- Lines 56-65 of the source: `get_source_links(soup, response)`. -/
def get_source_links (urljoin : Str → Str → Str) (soup : List Tag)
    (response : FetchResult) : List (Str × Str) :=
  let sources := find_all soup "source"
  let sources_srcs := sources.filterMap (fun t => attrRaw t (str "src"))
  let sources_srcsets := get_srcset_urls_from_tags sources
  (resolveLinks urljoin response.url (sources_srcs ++ sources_srcsets)).dedup

/-- Lines 68-74 of the source: `get_stylesheet_links(soup, response)`.  The
comprehension filters on `has_attr('rel') and rel == ['stylesheet']` but then
accesses `link['href']` unguarded, so a missing `href` raises `KeyError`;
`mapM` with `attrGet` reflects exactly that. -/
def get_stylesheet_links (urljoin : Str → Str → Str) (soup : List Tag)
    (response : FetchResult) : Except String (List (Str × Str)) := do
  let links := find_all soup "link"
  let link_srcs ← (links.filter (fun t =>
      hasAttr t (str "rel") && relValue t = some [str "stylesheet"])).mapM
    (fun t => attrGet t (str "href"))
  return (resolveLinks urljoin response.url link_srcs).dedup

/-- Lines 77-82 of the source: `get_js_links(soup, response)`. -/
def get_js_links (urljoin : Str → Str → Str) (soup : List Tag)
    (response : FetchResult) : List (Str × Str) :=
  let scripts := find_all soup "script"
  let link_srcs := scripts.filterMap (fun t => attrRaw t (str "src"))
  (resolveLinks urljoin response.url link_srcs).dedup

/-! ### Lines 97-118: `download_media` and `zip_files` -/

/-- Lines 97-105 of the source: `download_media(url, destination, session)`
performs a streaming GET and writes every body chunk to `destination`; the
status code of the response is never inspected.  The result is the
(destination, bytes written) pair; an exception from `s.get` propagates. -/
def download_media (get : Str → Except String FetchResult)
    (url destination : Str) : Except String (Str × Str) := do
  let r ← get url
  return (destination, r.content)

/-- Python `os.path.split(p)[-1]` (the basename after the last slash). -/
def basename (p : Str) : Str :=
  (pySplitOn (str "/") p).getLastD []

/-- Python `os.path.join(a, b)` for two components. -/
def pathJoin (a b : Str) : Str :=
  if (str "/").isPrefixOf b then b
  else if a = [] ∨ a.getLast? = some '/' then a ++ b
  else a ++ '/' :: b

/-- Lines 108-110 of the source: the archive name chosen by `zip_files`:
`'site'` when the working directory is the destination, otherwise
`os.path.split(destination_dir)[-1]`, plus `'.zip'`. -/
def zipName (destination_dir cwd : Str) : Str :=
  (if cwd = destination_dir then str "site" else basename destination_dir) ++ str ".zip"

/-- Lines 108-118 of the source: `zip_files(new_files, destination_dir)`
writes exactly the given file names into the archive (the filesystem write
itself is a collaborator; its failure is caught and logged). -/
def zip_files (new_files : List Str) (destination_dir cwd : Str) : Str × List Str :=
  (zipName destination_dir cwd, new_files)

/-! ### Lines 121-177: `copy_page`, and lines 180-188: `main` -/

/-- Lines 155-169 of the source, one iteration of the download loop.  The
accumulator is `(updated_page, created_files_relative_path, resource file
writes)`.  A download exception skips the resource (`continue`); on success
the reference text is rewritten to `./<filename>` and the file is recorded. -/
def downloadStep (env : Env) (destination_dir destdir_name : Str)
    (acc : Str × List Str × List (Str × Str)) (lp : Str × Str) :
    Str × List Str × List (Str × Str) :=
  let link := lp.1
  let rel_link := lp.2
  let new_filename := get_usable_filename_from_url link
  let dest := pathJoin destination_dir new_filename
  match download_media env.get link dest with
  | .error _ => acc
  | .ok w =>
    let replacement_path := pathJoin (str ".") new_filename
    (replaceAll rel_link replacement_path acc.1,
     acc.2.1 ++ [pathJoin destdir_name new_filename],
     acc.2.2 ++ [w])

/-- Lines 144-151 of the source: the ignore filter.  A pair is kept when
`re.search(ignore_regex, rel_link) is None`; a pattern that fails to compile
is caught and the list is left untouched. -/
def applyIgnore (regexCompile : Str → Option (Str → Bool)) (ignore : Option Str)
    (links : List (Str × Str)) : List (Str × Str) :=
  match ignore with
  | none => links
  | some pat =>
    match regexCompile pat with
    | some search => links.filter (fun lp => !search lp.2)
    | none => links

/-- Lines 137-143 of the source: parse the page and collect the four
categories in the order they are concatenated
(`img + stylesheet + js + source`); `js` only when `ignore_js` is off.
The stylesheet extractor may raise (see `get_stylesheet_links`). -/
def collect_links (env : Env) (r : FetchResult) (args : Args) :
    Except String (List (Str × Str)) := do
  let soup := env.parse r.content
  let img_links := get_img_links env.urljoin soup r
  let stylesheet_links ← get_stylesheet_links env.urljoin soup r
  let source_links := get_source_links env.urljoin soup r
  let js_links := if args.ignore_js = false then get_js_links env.urljoin soup r else []
  return img_links ++ stylesheet_links ++ js_links ++ source_links

/-- Observable outcome of one `copy_page` run that completed: the two
`index.html` writes (pristine then rewritten), the per-resource file writes,
the list handed to `zip_files`, and the produced archive, if any. -/
structure PageResult where
  base_page_path : Str
  pristine : Str
  final : Str
  resourceWrites : List (Str × Str)
  created_files_relative_path : List Str
  zipped : Option (Str × List Str)
deriving DecidableEq, Repr

/-- Lines 153-177 of the source: filter the collected links, run the
download/rewrite loop from the pristine page bytes, optionally zip, and
rewrite `index.html`. -/
def assemble (env : Env) (r : FetchResult) (destination_dir cwd : Str)
    (args : Args) (links : List (Str × Str)) : PageResult :=
  let destdir_name := if cwd = destination_dir then str "." else basename destination_dir
  let all_additional_links := applyIgnore env.regexCompile args.ignore links
  let res := all_additional_links.foldl (downloadStep env destination_dir destdir_name)
    (r.content, [], [])
  { base_page_path := pathJoin destination_dir (str "index.html")
    pristine := r.content
    final := res.1
    resourceWrites := res.2.2
    created_files_relative_path := res.2.1
    zipped := if args.zip then some (zip_files res.2.1 destination_dir cwd) else none }

/-- Lines 121-177 of the source: `copy_page(url, destination_dir, args)`.
The page is fetched once with `s.get` (an exception propagates); a non-200
status logs and returns (`none`); otherwise the pristine page is written,
resources are collected (a `KeyError` from the stylesheet extractor
propagates), filtered, downloaded and substituted, and the rewritten page is
written back. -/
def copy_page (env : Env) (url destination_dir cwd : Str) (args : Args) :
    Except String (Option PageResult) := do
  let r ← env.get url
  if r.status ≠ 200 then
    return none
  let links ← collect_links env r args
  return some (assemble env r destination_dir cwd args links)

/-- Lines 180-188 of the source: `main(urls, destination_dir, args)` runs
`copy_page` for each url in order; nothing catches an exception, so an
`.error` from one page aborts the whole batch. -/
def main_loop (env : Env) (urls : List Str) (destination_dir cwd : Str)
    (args : Args) : Except String (List (Option PageResult)) :=
  urls.mapM (fun u => copy_page env u destination_dir cwd args)

/-! ### Concrete scenario data used by the verification theorems -/

/-- A srcset candidate: a URL, optionally followed by a space and a
size/density descriptor. -/
def renderCand : Str × Option Str → Str
  | (u, none) => u
  | (u, some d) => u ++ ' ' :: d

/-- Arguments with every optional feature off. -/
def argsPlain : Args := ⟨false, false, none⟩

/-- Batch scenario: the first page fetch raises a transport error, the
second page would respond 200 with an empty page. -/
def envBatch : Env :=
  ⟨fun u => if u = str "u2" then .ok ⟨200, str "u2", str "H"⟩ else .error "ConnectionError",
   fun _ => [], fun _ rel => rel, fun _ => none⟩

/-- Batch scenario: the first page responds 500, the second 200. -/
def envBatch500 : Env :=
  ⟨fun u => if u = str "u1" then .ok ⟨500, str "u1", str "H"⟩ else .ok ⟨200, str "u2", str "H"⟩,
   fun _ => [], fun _ rel => rel, fun _ => none⟩

/-- Page whose markup parses to a single `link` tag with
`rel="stylesheet"` and no `href` attribute. -/
def envBareStylesheet : Env :=
  ⟨fun _ => .ok ⟨200, str "p", str "H"⟩,
   fun _ => [⟨str "link", [(str "rel", str "stylesheet")]⟩],
   fun _ rel => rel, fun _ => none⟩

/-- Page with one image resource that downloads successfully; used to
inspect the zip contents. -/
def envOneImg : Env :=
  ⟨fun u =>
    if u = str "http://p" then .ok ⟨200, str "http://p", str "<img src=\"/a.png\">"⟩
    else if u = str "http://x/a.png" then .ok ⟨200, str "http://x/a.png", str "PNG"⟩
    else .error "ConnectionError",
   fun c => if c = str "<img src=\"/a.png\">" then [⟨str "img", [(str "src", str "/a.png")]⟩] else [],
   fun _ rel => str "http://x" ++ rel,
   fun _ => none⟩

/-- Page whose single image tag has an empty `src` attribute. -/
def envEmptySrc : Env :=
  ⟨fun u =>
    if u = str "p" then .ok ⟨200, str "p", str "ab"⟩
    else if u = str "http://e" then .ok ⟨200, str "http://e", str "X"⟩
    else .error "ConnectionError",
   fun c => if c = str "ab" then [⟨str "img", [(str "src", [])]⟩] else [],
   fun _ _ => str "http://e",
   fun _ => none⟩

/-- Environment where only the URL `"ok"` is fetchable; everything else
raises a transport error. -/
def envOneGood : Env :=
  ⟨fun u => if u = str "ok" then .ok ⟨200, str "ok", str "B"⟩ else .error "Timeout",
   fun _ => [], fun _ rel => rel, fun _ => none⟩

/-- Environment whose every fetch obtains a 404 response with a body. -/
def env404 : Env :=
  ⟨fun _ => .ok ⟨404, str "nf", str "NotFound"⟩,
   fun _ => [], fun _ rel => rel, fun _ => none⟩

/-- A regex capability that compiles only the pattern `"drop"`, whose search
matches exactly the subject `"drop"`. -/
def rcDropOnly : Str → Option (Str → Bool) :=
  fun pat => if pat = str "drop" then some (fun s => s = str "drop") else none

/-! ### Lemmas about the string utilities -/

theorem isPrefixOf_length_le {l₁ l₂ : Str} (h : l₁.isPrefixOf l₂ = true) :
    l₁.length ≤ l₂.length :=
  (List.isPrefixOf_iff_prefix.mp h).length_le

theorem isPrefixOf_nil_eq_false (c : Char) (l : Str) :
    (c :: l).isPrefixOf [] = false := rfl

theorem isPrefixOf_cons_ne {c0 c : Char} (sep' cs : Str) (h : c ≠ c0) :
    (c0 :: sep').isPrefixOf (c :: cs) = false := by
  show (c0 == c && sep'.isPrefixOf cs) = false
  simp [Ne.symm h]

theorem splitGoF_fuel (c0 : Char) (sep' : Str) :
    ∀ f1 : Nat, ∀ f2 : Nat, ∀ acc s : Str, s.length < f1 → s.length < f2 →
      splitGoF c0 sep' f1 acc s = splitGoF c0 sep' f2 acc s := by
  intro f1
  induction f1 with
  | zero => intro f2 acc s h1 _; exact absurd h1 (by omega)
  | succ f1 ih =>
    intro f2 acc s h1 h2
    match f2, h2 with
    | f2 + 1, h2 =>
      match s with
      | [] => rw [splitGoF.eq_2, splitGoF.eq_2, isPrefixOf_nil_eq_false]; simp
      | c :: cs =>
        rw [splitGoF.eq_3, splitGoF.eq_3]
        by_cases hp : (c0 :: sep').isPrefixOf (c :: cs) = true
        · have hlen : sep'.length + 1 ≤ (c :: cs).length := by
            simpa using isPrefixOf_length_le hp
          rw [if_pos hp, if_pos hp,
            ih f2 [] _ (by rw [List.length_drop]; simp at h1 hlen ⊢; omega)
              (by rw [List.length_drop]; simp at h2 hlen ⊢; omega)]
        · rw [if_neg hp, if_neg hp,
            ih f2 (acc ++ [c]) cs (by simp at h1; omega) (by simp at h2; omega)]

theorem splitGoF_no_sep (c0 : Char) (sep' : Str) :
    ∀ s : Str, ∀ fuel : Nat, ∀ acc : Str, c0 ∉ s →
      splitGoF c0 sep' fuel acc s = [acc ++ s] := by
  intro s
  induction s with
  | nil =>
    intro fuel acc _
    match fuel with
    | 0 => rfl
    | fuel + 1 => rw [splitGoF.eq_2, isPrefixOf_nil_eq_false]; simp
  | cons c cs ih =>
    intro fuel acc h
    have hc : c ≠ c0 := fun hh => h (hh ▸ List.mem_cons_self c cs)
    match fuel with
    | 0 => rfl
    | fuel + 1 =>
      rw [splitGoF.eq_3, isPrefixOf_cons_ne sep' cs hc]
      simp only [Bool.false_eq_true, if_false]
      rw [ih fuel (acc ++ [c]) (fun hm => h (List.mem_cons_of_mem c hm))]
      simp

theorem splitGoF_append (c0 : Char) (sep' : Str) :
    ∀ a : Str, ∀ fuel : Nat, ∀ acc r : Str, c0 ∉ a →
      a.length + (sep'.length + 1) + r.length < fuel →
      splitGoF c0 sep' fuel acc (a ++ (c0 :: sep') ++ r) =
        (acc ++ a) :: splitGoF c0 sep' (r.length + 1) [] r := by
  intro a
  induction a with
  | nil =>
    intro fuel acc r _ hfuel
    match fuel, hfuel with
    | fuel + 1, hfuel =>
      have hpre : (c0 :: sep').isPrefixOf (c0 :: (sep' ++ r)) = true :=
        List.isPrefixOf_iff_prefix.mpr (List.prefix_append (c0 :: sep') r)
      simp only [List.nil_append, List.cons_append]
      rw [splitGoF.eq_3, if_pos hpre]
      have hdrop : (c0 :: (sep' ++ r)).drop (sep'.length + 1) = r := by
        have h1 : (c0 :: sep').length = sep'.length + 1 := by simp
        have h2 := List.drop_left (c0 :: sep') r
        rw [h1] at h2
        exact h2
      rw [hdrop,
        splitGoF_fuel c0 sep' fuel (r.length + 1) [] r (by simp at hfuel; omega) (by omega)]
      simp
  | cons x a' ih =>
    intro fuel acc r hmem hfuel
    have hx : x ≠ c0 := fun hh => hmem (hh ▸ List.mem_cons_self x a')
    match fuel, hfuel with
    | fuel + 1, hfuel =>
      simp only [List.cons_append]
      rw [splitGoF.eq_3, isPrefixOf_cons_ne sep' _ hx]
      simp only [Bool.false_eq_true, if_false]
      have := ih fuel (acc ++ [x]) r (fun hm => hmem (List.mem_cons_of_mem x hm))
        (by simp at hfuel ⊢; omega)
      simp only [List.cons_append] at this
      rw [this]
      simp

theorem pySplitOn_append (c0 : Char) (sep' a r : Str) (h : c0 ∉ a) :
    pySplitOn (c0 :: sep') (a ++ (c0 :: sep') ++ r) = a :: pySplitOn (c0 :: sep') r := by
  show splitGoF c0 sep' ((a ++ (c0 :: sep') ++ r).length + 1) [] (a ++ (c0 :: sep') ++ r) = _
  rw [splitGoF_append c0 sep' a _ [] r h (by simp; omega)]
  rfl

theorem pySplitOn_no_sep (c0 : Char) (sep' s : Str) (h : c0 ∉ s) :
    pySplitOn (c0 :: sep') s = [s] := by
  show splitGoF c0 sep' (s.length + 1) [] s = [s]
  rw [splitGoF_no_sep c0 sep' s _ [] h]
  rfl

theorem comma_not_mem_renderCand (p : Str × Option Str)
    (h1 : ',' ∉ p.1) (h2 : ∀ d, p.2 = some d → ',' ∉ d) : ',' ∉ renderCand p := by
  match p with
  | (u, none) => exact h1
  | (u, some d) =>
    show ',' ∉ u ++ ' ' :: d
    intro hm
    rcases List.mem_append.mp hm with hu | hd
    · exact h1 hu
    · rcases List.mem_cons.mp hd with hsp | hd
      · exact absurd hsp (by decide)
      · exact h2 d rfl hd

theorem headTok_renderCand (p : Str × Option Str) (hsp : ' ' ∉ p.1) :
    (pySplitOn (str " ") (renderCand p)).headD [] = p.1 := by
  match p with
  | (u, none) =>
    show (pySplitOn (' ' :: []) u).headD [] = u
    rw [pySplitOn_no_sep ' ' [] u hsp]
    rfl
  | (u, some d) =>
    show (pySplitOn (' ' :: []) (renderCand (u, some d))).headD [] = u
    have hshape : renderCand (u, some d) = u ++ (' ' :: []) ++ d := by
      show u ++ ' ' :: d = u ++ (' ' :: []) ++ d
      simp
    rw [hshape, pySplitOn_append ' ' [] u d hsp]
    rfl

theorem srcsetValue_round : ∀ cs : List (Str × Option Str), cs ≠ [] →
    (∀ p ∈ cs, ',' ∉ p.1 ∧ ' ' ∉ p.1 ∧ ∀ d, p.2 = some d → ',' ∉ d) →
    srcsetUrlsOfValue (joinSep (str ", ") (cs.map renderCand)) = cs.map Prod.fst := by
  intro cs
  induction cs with
  | nil => intro h; exact absurd rfl h
  | cons c cs ih =>
    intro _ hall
    have hc := hall c (List.mem_cons_self c cs)
    have hcomma : ',' ∉ renderCand c := comma_not_mem_renderCand c hc.1 hc.2.2
    match cs with
    | [] =>
      show srcsetUrlsOfValue (renderCand c) = [c.1]
      unfold srcsetUrlsOfValue
      have hsep : str ", " = ',' :: (' ' :: []) := rfl
      rw [hsep, pySplitOn_no_sep ',' (' ' :: []) _ hcomma]
      simp only [List.map_cons, List.map_nil]
      rw [headTok_renderCand c hc.2.1]
    | c2 :: cs' =>
      have hjoin : joinSep (str ", ") ((c :: c2 :: cs').map renderCand) =
          renderCand c ++ (',' :: (' ' :: [])) ++
            joinSep (str ", ") ((c2 :: cs').map renderCand) := rfl
      unfold srcsetUrlsOfValue
      have hsep : str ", " = ',' :: (' ' :: []) := rfl
      rw [hjoin, hsep, pySplitOn_append ',' (' ' :: []) _ _ hcomma]
      have ihh := ih (by simp) (fun p hp => hall p (List.mem_cons_of_mem c hp))
      unfold srcsetUrlsOfValue at ihh
      rw [hsep] at ihh
      simp only [List.map_cons]
      rw [headTok_renderCand c hc.2.1]
      exact congrArg (c.1 :: ·) ihh

/-! ### Lemmas for the filename deriver -/

theorem dropThroughColon_append : ∀ a r : Str, ':' ∉ a →
    dropThroughColon (a ++ ':' :: r) = r := by
  intro a
  induction a with
  | nil => intro r _; simp [dropThroughColon]
  | cons x a' ih =>
    intro r h
    have hx : x ≠ ':' := fun hh => h (hh ▸ List.mem_cons_self x a')
    show dropThroughColon (x :: (a' ++ ':' :: r)) = r
    rw [dropThroughColon, if_neg hx]
    exact ih r (fun hm => h (List.mem_cons_of_mem x hm))

theorem cutScheme_append (a r : Str) (h : ':' ∉ a) :
    cutScheme (a ++ ':' :: r) = r := by
  unfold cutScheme
  rw [if_pos (List.mem_append.mpr (Or.inr (List.mem_cons_self ':' r)))]
  exact dropThroughColon_append a r h

theorem dropWhile_slash_eq_self (m : Str) (h : m.head? ≠ some '/') :
    m.dropWhile (fun c => c = '/') = m := by
  match m with
  | [] => rfl
  | c :: cs =>
    have hc : c ≠ '/' := fun hh => h (by simp [hh])
    rw [List.dropWhile_cons, if_neg (by simpa using hc)]

theorem stripSlashes_dslash (m : Str) (h1 : m.head? ≠ some '/')
    (h2 : m.getLast? ≠ some '/') : stripSlashes ('/' :: '/' :: m) = m := by
  unfold stripSlashes
  rw [List.dropWhile_cons, if_pos (by simp), List.dropWhile_cons, if_pos (by simp),
    dropWhile_slash_eq_self m h1,
    dropWhile_slash_eq_self m.reverse (by rw [List.head?_reverse]; exact h2),
    List.reverse_reverse]

theorem slashToUnderscore_no_slash (s : Str) (h : '/' ∉ s) :
    slashToUnderscore s = s := by
  induction s with
  | nil => rfl
  | cons c cs ih =>
    have hc : c ≠ '/' := fun hh => h (hh ▸ List.mem_cons_self c cs)
    show (if c = '/' then '_' else c) :: slashToUnderscore cs = c :: cs
    rw [if_neg hc, ih (fun hm => h (List.mem_cons_of_mem c hm))]

theorem slashToUnderscore_append (a b : Str) :
    slashToUnderscore (a ++ b) = slashToUnderscore a ++ slashToUnderscore b :=
  List.map_append _ a b

theorem slashToUnderscore_joinSlash : ∀ segs : List Str, (∀ s ∈ segs, '/' ∉ s) →
    slashToUnderscore (joinSep (str "/") segs) = joinSep (str "_") segs := by
  intro segs
  induction segs with
  | nil => intro _; rfl
  | cons s segs ih =>
    intro hall
    match segs with
    | [] => exact slashToUnderscore_no_slash s (hall s (List.mem_cons_self s []))
    | s2 :: segs' =>
      show slashToUnderscore (s ++ str "/" ++ joinSep (str "/") (s2 :: segs')) =
        s ++ str "_" ++ joinSep (str "_") (s2 :: segs')
      rw [slashToUnderscore_append, slashToUnderscore_append,
        slashToUnderscore_no_slash s (hall s (List.mem_cons_self s _)),
        ih (fun p hp => hall p (List.mem_cons_of_mem s hp))]
      rfl

theorem joinSep_head? (sep : Str) : ∀ s0 : Str, ∀ rest : List Str, s0 ≠ [] →
    (joinSep sep (s0 :: rest)).head? = s0.head? := by
  intro s0 rest h0
  match rest with
  | [] => rfl
  | r :: rs =>
    show ((s0 ++ sep ++ joinSep sep (r :: rs))).head? = s0.head?
    match s0, h0 with
    | c :: cs, _ => simp

theorem joinSep_ne_nil (sep : Str) (s0 : Str) (rest : List Str) (h0 : s0 ≠ []) :
    joinSep sep (s0 :: rest) ≠ [] := by
  intro hcon
  have h1 := joinSep_head? sep s0 rest h0
  rw [hcon] at h1
  match s0, h0 with
  | c :: cs, _ => simp at h1

theorem joinSep_getLast_mem (sep : Str) : ∀ segs : List Str, segs ≠ [] →
    (∀ s ∈ segs, s ≠ []) → ∀ c : Char,
    (joinSep sep segs).getLast? = some c → ∃ s ∈ segs, c ∈ s := by
  intro segs
  induction segs with
  | nil => intro h; exact absurd rfl h
  | cons s segs ih =>
    intro _ hall c hlast
    match segs with
    | [] =>
      exact ⟨s, List.mem_cons_self s [], List.mem_of_mem_getLast? hlast⟩
    | s2 :: segs' =>
      have hne : joinSep sep (s2 :: segs') ≠ [] :=
        joinSep_ne_nil sep s2 segs' (hall s2 (by simp))
      have heq : joinSep sep (s :: s2 :: segs') = s ++ (sep ++ joinSep sep (s2 :: segs')) := by
        show s ++ sep ++ joinSep sep (s2 :: segs') = _
        simp
      rw [heq, List.getLast?_append_of_ne_nil s (by simp [hne]),
        List.getLast?_append_of_ne_nil sep hne] at hlast
      obtain ⟨t, ht, hc⟩ := ih (by simp) (fun p hp => hall p (List.mem_cons_of_mem s hp)) c hlast
      exact ⟨t, List.mem_cons_of_mem s ht, hc⟩

theorem joinSep_not_mem (sep : Str) (c : Char) : ∀ segs : List Str, c ∉ sep →
    (∀ s ∈ segs, c ∉ s) → c ∉ joinSep sep segs := by
  intro segs hsep
  induction segs with
  | nil => intro _; simp [joinSep]
  | cons s segs ih =>
    intro hall
    match segs with
    | [] => exact hall s (List.mem_cons_self s [])
    | s2 :: segs' =>
      show c ∉ s ++ sep ++ joinSep sep (s2 :: segs')
      intro hm
      rcases List.mem_append.mp hm with hm1 | hm2
      · rcases List.mem_append.mp hm1 with hs | hsp
        · exact hall s (List.mem_cons_self s _) hs
        · exact hsep hsp
      · exact ih (fun p hp => hall p (List.mem_cons_of_mem s hp)) hm2

theorem stripQAux_no_q (ext : Str) : ∀ s acc : Str, '?' ∉ s →
    stripQAux ext acc s = acc ++ s := by
  intro s
  induction s with
  | nil => intro acc _; simp [stripQAux]
  | cons c cs ih =>
    intro acc h
    have hc : c ≠ '?' := fun hh => h (hh ▸ List.mem_cons_self c cs)
    rw [stripQAux, if_neg (fun hcon => hc hcon.1),
      ih (acc ++ [c]) (fun hm => h (List.mem_cons_of_mem c hm))]
    simp

theorem stripQAux_q (ext : Str) : ∀ flat acc q : Str, '?' ∉ flat → q ≠ [] →
    '/' ∉ q → '?' ∉ q →
    stripQAux ext acc (flat ++ '?' :: q) =
      if ext.isSuffixOf (acc ++ flat) = true then acc ++ flat
      else acc ++ flat ++ '?' :: q := by
  intro flat
  induction flat with
  | nil =>
    intro acc q _ hq hsl hqm
    show stripQAux ext acc ('?' :: q) = _
    rw [stripQAux]
    by_cases hsuf : ext.isSuffixOf acc = true
    · rw [if_pos ⟨rfl, hsuf, hq, hsl⟩]
      simp [hsuf]
    · rw [if_neg (fun hcon => hsuf hcon.2.1), stripQAux_no_q ext q (acc ++ ['?']) hqm]
      simp [hsuf]
  | cons c flat' ih =>
    intro acc q hflat hq hsl hqm
    have hc : c ≠ '?' := fun hh => hflat (hh ▸ List.mem_cons_self c flat')
    show stripQAux ext acc (c :: (flat' ++ '?' :: q)) = _
    rw [stripQAux, if_neg (fun hcon => hc hcon.1),
      ih (acc ++ [c]) q (fun hm => hflat (List.mem_cons_of_mem c hm)) hq hsl hqm]
    simp

/-! ### Lemmas about the retry loop -/

theorem get_retryGo_all_non200 (attempts : Nat → Except String FetchResult) :
    ∀ n i : Nat, 0 < n →
    (∀ j, i ≤ j → j < i + n → ∃ r, attempts j = .ok r ∧ r.status ≠ 200) →
    get_retryGo attempts i n = (attempts (i + n - 1)).map (fun r => (r, i + n)) := by
  intro n
  induction n with
  | zero => intro i h; exact absurd h (by omega)
  | succ k ihk =>
    intro i _ hall
    obtain ⟨r, hr, hst⟩ := hall i (le_refl i) (by omega)
    match k with
    | 0 =>
      show get_retryGo attempts i 1 = _
      rw [get_retryGo, hr]
      show Except.ok (r, i + 1) = (attempts (i + 1 - 1)).map (fun r => (r, i + 1))
      simp [hr, Except.map]
    | k' + 1 =>
      show get_retryGo attempts i (k' + 2) = _
      rw [get_retryGo, hr]
      show (if r.status = 200 then Except.ok (r, i + 1)
          else get_retryGo attempts (i + 1) (k' + 1)) = _
      rw [if_neg hst,
        ihk (i + 1) (by omega) (fun j hj1 hj2 => hall j (by omega) (by omega))]
      have e1 : i + 1 + (k' + 1) - 1 = i + (k' + 2) - 1 := by omega
      have e2 : i + 1 + (k' + 1) = i + (k' + 2) := by omega
      rw [e1, e2]

theorem get_retryGo_all_error (attempts : Nat → Except String FetchResult)
    (e : Nat → String) : ∀ n i : Nat, 0 < n →
    (∀ j, i ≤ j → j < i + n → attempts j = .error (e j)) →
    get_retryGo attempts i n = .error (e (i + n - 1)) := by
  intro n
  induction n with
  | zero => intro i h; exact absurd h (by omega)
  | succ k ihk =>
    intro i _ hall
    have hr := hall i (le_refl i) (by omega)
    match k with
    | 0 =>
      show get_retryGo attempts i 1 = _
      rw [get_retryGo, hr]
      show Except.error (e i) = Except.error (e (i + (0 + 1) - 1))
      simp
    | k' + 1 =>
      show get_retryGo attempts i (k' + 2) = _
      rw [get_retryGo, hr]
      show get_retryGo attempts (i + 1) (k' + 1) = _
      rw [ihk (i + 1) (by omega) (fun j hj1 hj2 => hall j (by omega) (by omega))]
      have e1 : i + 1 + (k' + 1) - 1 = i + (k' + 2) - 1 := by omega
      rw [e1]

/-! ### Claim C1 -/

/-- C1 counterexample.  The claim says that a GET attempt obtaining a
non-200 response exits the loop immediately, i.e. exactly one attempt is
made and that response is returned.  Running `get_retry` against an oracle
whose every attempt returns a 404 response, with `max_retries = 3`, makes
three GET attempts (the loop `break`s only on status 200), refuting the
claim; the third 404 response is what is finally returned. -/
theorem C1_counterexample :
    get_retry (fun _ => .ok ⟨404, str "u", str "c"⟩) 3 =
      .ok (⟨404, str "u", str "c"⟩, 3) ∧
    get_retry (fun _ => .ok ⟨404, str "u", str "c"⟩) 3 ≠
      .ok (⟨404, str "u", str "c"⟩, 1) := by
  constructor
  · rfl
  · decide

/-- C1 amended.  In `get_retry`, a 200 response on the first attempt is
returned after exactly one attempt; when every attempt yields a response
with a non-200 status, the loop performs all `max_retries` attempts and
returns the last response (a non-200 response is retried, not returned
immediately); and when every attempt raises, the loop performs all attempts
and re-raises the last error. -/
theorem C1_amended_thm :
    (∀ (attempts : Nat → Except String FetchResult) (max_retries : Nat)
      (r : FetchResult), 0 < max_retries → attempts 0 = .ok r → r.status = 200 →
      get_retry attempts max_retries = .ok (r, 1)) ∧
    (∀ (attempts : Nat → Except String FetchResult) (max_retries : Nat),
      0 < max_retries →
      (∀ i, i < max_retries → ∃ r, attempts i = .ok r ∧ r.status ≠ 200) →
      get_retry attempts max_retries =
        (attempts (max_retries - 1)).map (fun r => (r, max_retries))) ∧
    (∀ (attempts : Nat → Except String FetchResult) (max_retries : Nat)
      (e : Nat → String), 0 < max_retries →
      (∀ i, i < max_retries → attempts i = .error (e i)) →
      get_retry attempts max_retries = .error (e (max_retries - 1))) := by
  refine ⟨?_, ?_, ?_⟩
  · intro attempts max_retries r hpos hok h200
    match max_retries, hpos with
    | 1, _ =>
      show get_retryGo attempts 0 1 = _
      rw [get_retryGo, hok]
    | m + 2, _ =>
      show get_retryGo attempts 0 (m + 2) = _
      rw [get_retryGo, hok]
      show (if r.status = 200 then Except.ok (r, 0 + 1)
          else get_retryGo attempts (0 + 1) (m + 1)) = _
      rw [if_pos h200]
  · intro attempts max_retries hpos hall
    have h := get_retryGo_all_non200 attempts max_retries 0 hpos
      (fun j hj1 hj2 => hall j (by omega))
    simpa using h
  · intro attempts max_retries e hpos hall
    have h := get_retryGo_all_error attempts e max_retries 0 hpos
      (fun j hj1 hj2 => hall j (by omega))
    simpa using h

/-- C1 amended, witness: the three parts of `C1_amended_thm` applied at
concrete oracles (a first-attempt 200, an always-404 oracle with two
attempts, an always-raising oracle). -/
theorem C1_amended_witness :
    get_retry (fun _ => .ok ⟨200, str "u", str "c"⟩) 3 = .ok (⟨200, str "u", str "c"⟩, 1) ∧
    get_retry (fun _ => .ok ⟨404, str "u", str "c"⟩) 2 =
      ((fun (_ : Nat) => (.ok ⟨404, str "u", str "c"⟩ : Except String FetchResult)) 1).map
        (fun r => (r, 2)) ∧
    get_retry (fun _ => .error "boom") 2 = .error ((fun (_ : Nat) => "boom") 1) :=
  ⟨C1_amended_thm.1 (fun _ => .ok ⟨200, str "u", str "c"⟩) 3 ⟨200, str "u", str "c"⟩
      (by omega) rfl rfl,
   C1_amended_thm.2.1 (fun _ => .ok ⟨404, str "u", str "c"⟩) 2 (by omega)
      (fun i _ => ⟨⟨404, str "u", str "c"⟩, rfl, by decide⟩),
   C1_amended_thm.2.2 (fun _ => .error "boom") 2 (fun _ => "boom") (by omega)
      (fun i _ => rfl)⟩

/-! ### Claim C2 -/

/-- C2 counterexample.  The claim says processing one page never aborts the
batch and that a transport error on the page fetch is retried.  In the code,
`copy_page` fetches the page with a bare `s.get` (never through `get_retry`)
and `main` has no exception handling: with a batch of two URLs whose first
page fetch raises a connection error, the whole batch aborts with that
error, even though the second page on its own would have been archived
(second conjunct). -/
theorem C2_counterexample :
    main_loop envBatch [str "u1", str "u2"] (str "/d") (str "/") argsPlain =
      .error "ConnectionError" ∧
    copy_page envBatch (str "u2") (str "/d") (str "/") argsPlain =
      .ok (some { base_page_path := str "/d/index.html", pristine := str "H",
                  final := str "H", resourceWrites := [],
                  created_files_relative_path := [], zipped := none }) := by
  constructor
  · rfl
  · rfl

/-- C2 amended.  A page responding with a non-200 status fails only that
page: `copy_page` returns normally and the batch continues with the
remaining URLs.  But a transport error (an exception) on the page fetch is
not retried - the single `s.get` error propagates out of `copy_page` and
aborts the entire batch. -/
theorem C2_amended_thm :
    (∀ (env : Env) (u : Str) (rest : List Str) (d cwd : Str) (args : Args)
      (r : FetchResult), env.get u = .ok r → r.status ≠ 200 →
      main_loop env (u :: rest) d cwd args =
        (main_loop env rest d cwd args).map (fun l => none :: l)) ∧
    (∀ (env : Env) (u : Str) (rest : List Str) (d cwd : Str) (args : Args)
      (e : String), env.get u = .error e →
      main_loop env (u :: rest) d cwd args = .error e) := by
  constructor
  · intro env u rest d cwd args r h1 h2
    have hcopy : copy_page env u d cwd args = .ok none := by
      simp [copy_page, Bind.bind, Except.bind, h1, h2]
      rfl
    have hrest : main_loop env rest d cwd args =
        List.mapM (fun u => copy_page env u d cwd args) rest := rfl
    show List.mapM (fun u => copy_page env u d cwd args) (u :: rest) = _
    rw [List.mapM_cons, hcopy, hrest]
    cases hm : List.mapM (fun u => copy_page env u d cwd args) rest <;> rfl
  · intro env u rest d cwd args e h
    have hcopy : copy_page env u d cwd args = .error e := by
      simp [copy_page, Bind.bind, Except.bind, h]
    show List.mapM (fun u => copy_page env u d cwd args) (u :: rest) = _
    rw [List.mapM_cons, hcopy]
    rfl

/-- C2 amended, witness: a 500 page is skipped and the batch continues
(`envBatch500`); an exception on the first page aborts the batch
(`envBatch`). -/
theorem C2_amended_witness :
    main_loop envBatch500 [str "u1", str "u2"] (str "/d") (str "/") argsPlain =
      (main_loop envBatch500 [str "u2"] (str "/d") (str "/") argsPlain).map
        (fun l => none :: l) ∧
    main_loop envBatch [str "u1", str "u2"] (str "/d") (str "/") argsPlain =
      .error "ConnectionError" :=
  ⟨C2_amended_thm.1 envBatch500 (str "u1") [str "u2"] (str "/d") (str "/") argsPlain
      ⟨500, str "u1", str "H"⟩ rfl (by decide),
   C2_amended_thm.2 envBatch (str "u1") [str "u2"] (str "/d") (str "/") argsPlain
      "ConnectionError" rfl⟩

/-! ### Claim C3 -/

/-- C3, exhibiting the code bug.  The claim (and the spec) says a tag
missing the relevant attribute contributes nothing and raises no error, in
particular for a `link` tag with `rel="stylesheet"` and no `href`.  The
comprehension in `get_stylesheet_links` guards on `has_attr('rel')` but then
reads `link['href']` unguarded, so exactly this tag raises `KeyError`; the
error propagates out of `copy_page` (nothing catches it), aborting the page.
The sibling extractors all guard on the attribute they read, and the spec
states the guarded behaviour, so this is a slip in the code. -/
theorem C3_code_bug_thm :
    get_stylesheet_links (fun _ rel => rel)
      [⟨str "link", [(str "rel", str "stylesheet")]⟩] ⟨200, str "p", str "H"⟩ =
      .error "KeyError" ∧
    copy_page envBareStylesheet (str "p") (str "/d") (str "/") argsPlain =
      .error "KeyError" := by
  constructor
  · rfl
  · rfl

/-! ### Claim C4 -/

/-- C4 counterexample.  The claim says the produced zip contains the page
file (`index.html`) and the downloaded resources.  In the code,
`created_files_relative_path` only ever receives resource files, and
`zip_files` receives that list, so the archive of a successful one-image run
is exactly `out.zip` containing `out/x_a.png` - and no entry for
`index.html` (the page file is never added). -/
theorem C4_counterexample :
    copy_page envOneImg (str "http://p") (str "/tmp/out") (str "/home")
      ⟨false, true, none⟩ =
      .ok (some { base_page_path := str "/tmp/out/index.html",
                  pristine := str "<img src=\"/a.png\">",
                  final := str "<img src=\"./x_a.png\">",
                  resourceWrites := [(str "/tmp/out/x_a.png", str "PNG")],
                  created_files_relative_path := [str "out/x_a.png"],
                  zipped := some (str "out.zip", [str "out/x_a.png"]) }) ∧
    (str "index.html").isSuffixOf (str "out/x_a.png") = false := by
  constructor
  · rfl
  · rfl

/-- C4 amended.  When packaging is enabled, the produced archive is named
`site.zip` when the destination is the working directory and
`<basename destination>.zip` otherwise, and its contents are exactly
`created_files_relative_path` - the successfully downloaded resource files
with destination-relative paths; the page file is not among them (the
counterexample shows a concrete archive without `index.html`). -/
theorem C4_amended_thm :
    ∀ (env : Env) (url d cwd : Str) (args : Args) (r : FetchResult)
      (links : List (Str × Str)),
      env.get url = .ok r → r.status = 200 → collect_links env r args = .ok links →
      args.zip = true →
      copy_page env url d cwd args = .ok (some (assemble env r d cwd args links)) ∧
      (assemble env r d cwd args links).zipped =
        some ((if cwd = d then str "site" else basename d) ++ str ".zip",
          (assemble env r d cwd args links).created_files_relative_path) := by
  intro env url d cwd args r links h1 h2 h3 hz
  constructor
  · simp [copy_page, Bind.bind, Except.bind, h1, h2, h3, Functor.map, Except.map]
    rfl
  · simp [assemble, zip_files, zipName, hz]

/-- C4 amended, witness: `C4_amended_thm` applied to the one-image scenario
`envOneImg`. -/
theorem C4_amended_witness :
    copy_page envOneImg (str "http://p") (str "/tmp/out") (str "/home")
      ⟨false, true, none⟩ =
      .ok (some (assemble envOneImg ⟨200, str "http://p", str "<img src=\"/a.png\">"⟩
        (str "/tmp/out") (str "/home") ⟨false, true, none⟩
        [(str "http://x/a.png", str "/a.png")])) ∧
    (assemble envOneImg ⟨200, str "http://p", str "<img src=\"/a.png\">"⟩
        (str "/tmp/out") (str "/home") ⟨false, true, none⟩
        [(str "http://x/a.png", str "/a.png")]).zipped =
      some ((if str "/home" = str "/tmp/out" then str "site"
          else basename (str "/tmp/out")) ++ str ".zip",
        (assemble envOneImg ⟨200, str "http://p", str "<img src=\"/a.png\">"⟩
          (str "/tmp/out") (str "/home") ⟨false, true, none⟩
          [(str "http://x/a.png", str "/a.png")]).created_files_relative_path) :=
  C4_amended_thm envOneImg (str "http://p") (str "/tmp/out") (str "/home")
    ⟨false, true, none⟩ ⟨200, str "http://p", str "<img src=\"/a.png\">"⟩
    [(str "http://x/a.png", str "/a.png")] rfl rfl rfl rfl

/-! ### Claim C5 -/

/-- C5 counterexample.  The claim says no pair with empty original
reference text is ever resolved, downloaded, or used as a search key.  With
a page whose one image tag has `src=""`, the extraction keeps the pair
`(urljoin(page, ""), "")`: the run downloads it (`resourceWrites` is
non-empty) and uses the empty string as the `re.sub` search key, so the
replacement text is inserted at every position of the page (`"ab"` becomes
`"./ea./eb./e"`). -/
theorem C5_counterexample :
    copy_page envEmptySrc (str "p") (str "/d") (str "/") argsPlain =
      .ok (some { base_page_path := str "/d/index.html",
                  pristine := str "ab",
                  final := str "./ea./eb./e",
                  resourceWrites := [(str "/d/e", str "X")],
                  created_files_relative_path := [str "d/e"],
                  zipped := none }) ∧
    str "./ea./eb./e" ≠ str "ab" := by
  constructor
  · rfl
  · decide

/-- C5 amended.  Nothing filters empty reference strings: an `img` tag with
an empty `src` contributes the pair `(urljoin(pageUrl, ""), "")` to the
extracted set, and when such a pair reaches the rewrite step its empty
original text makes the substitution insert the replacement at every
position of the page. -/
theorem C5_amended_thm :
    (∀ (urljoin : Str → Str → Str) (soup : List Tag) (r : FetchResult) (t : Tag),
      t ∈ soup → t.name = str "img" → attrRaw t (str "src") = some [] →
      (urljoin r.url [], ([] : Str)) ∈ get_img_links urljoin soup r) ∧
    (∀ repl s : Str, replaceAll [] repl s = insertEverywhere repl s) := by
  constructor
  · intro urljoin soup r t hmem hname hsrc
    unfold get_img_links
    rw [List.mem_dedup]
    apply List.mem_map.mpr
    refine ⟨[], ?_, ?_⟩
    · apply List.mem_append_left
      apply List.mem_filterMap.mpr
      exact ⟨t, List.mem_filter.mpr ⟨hmem, by simp [find_all, hname]⟩, hsrc⟩
    · have hpre : ((str "http").isPrefixOf ([] : Str)) = false := rfl
      simp [hpre]
  · intro repl s
    rfl

/-- C5 amended, witness: the membership part of `C5_amended_thm` applied to
the concrete empty-`src` page of `envEmptySrc`. -/
theorem C5_amended_witness :
    ((fun (_ : Str) (_ : Str) => str "http://e") (str "p") ([] : Str), ([] : Str)) ∈
      get_img_links (fun _ _ => str "http://e")
        [⟨str "img", [(str "src", [])]⟩] ⟨200, str "p", str "ab"⟩ :=
  C5_amended_thm.1 (fun _ _ => str "http://e") [⟨str "img", [(str "src", [])]⟩]
    ⟨200, str "p", str "ab"⟩ ⟨str "img", [(str "src", [])]⟩
    (List.mem_cons_self _ _) rfl rfl

/-! ### Claim C6 -/

theorem srcset_single_tag (nm v : Str) :
    get_srcset_urls_from_tags [⟨nm, [(str "srcset", v)]⟩] = srcsetUrlsOfValue v := by
  have hattr : attrRaw ⟨nm, [(str "srcset", v)]⟩ (str "srcset") = some v := rfl
  simp [get_srcset_urls_from_tags, hattr]

/-- C6: srcset parsing.  For every srcset-style attribute value built as a
`", "`-separated list of candidates - a URL (no comma, no space) optionally
followed by a space and a descriptor (no comma) - the parser keeps exactly
the URL token before the first space of each candidate; in particular
`"a.jpg 1x, b.jpg 2x"` parses to `["a.jpg", "b.jpg"]`. -/
theorem C6_thm :
    (∀ cs : List (Str × Option Str), cs ≠ [] →
      (∀ p ∈ cs, ',' ∉ p.1 ∧ ' ' ∉ p.1 ∧ ∀ d, p.2 = some d → ',' ∉ d) →
      get_srcset_urls_from_tags
        [⟨str "source", [(str "srcset", joinSep (str ", ") (cs.map renderCand))]⟩] =
        cs.map Prod.fst) ∧
    get_srcset_urls_from_tags
      [⟨str "img", [(str "srcset", str "a.jpg 1x, b.jpg 2x")]⟩] =
      [str "a.jpg", str "b.jpg"] := by
  constructor
  · intro cs hne hall
    rw [srcset_single_tag, srcsetValue_round cs hne hall]
  · decide

/-- C6 witness: the general part of `C6_thm` applied to the two candidates
`("a.jpg", "1x")` and `("b.jpg", "2x")`. -/
theorem C6_witness :
    get_srcset_urls_from_tags
      [⟨str "source", [(str "srcset", joinSep (str ", ")
        (([(str "a.jpg", some (str "1x")), (str "b.jpg", some (str "2x"))]).map
          renderCand))]⟩] =
      ([(str "a.jpg", some (str "1x")), (str "b.jpg", some (str "2x"))]).map Prod.fst :=
  C6_thm.1 [(str "a.jpg", some (str "1x")), (str "b.jpg", some (str "2x"))]
    (by decide) (by decide)

/-! ### Claim C7 -/

/-- C7: a failed resource download contributes nothing.  The download loop
over the reference pairs computes the same result as the loop restricted to
the pairs whose fetch succeeds (so a failing pair adds no substitution, no
packaging entry and no file write); a single failing step returns its
accumulator unchanged (the original reference text stays in the page bytes
at that spot); and the page itself still completes: `copy_page` returns
normally whatever the resource fetches do. -/
theorem C7_thm :
    (∀ (env : Env) (d dn : Str) (init : Str × List Str × List (Str × Str))
      (pairs : List (Str × Str)),
      pairs.foldl (downloadStep env d dn) init =
        (pairs.filter (fun lp => (env.get lp.1).isOk)).foldl
          (downloadStep env d dn) init) ∧
    (∀ (env : Env) (d dn : Str) (acc : Str × List Str × List (Str × Str))
      (link rel : Str) (e : String), env.get link = .error e →
      downloadStep env d dn acc (link, rel) = acc) ∧
    (∀ (env : Env) (url d cwd : Str) (args : Args) (r : FetchResult)
      (links : List (Str × Str)),
      env.get url = .ok r → r.status = 200 → collect_links env r args = .ok links →
      copy_page env url d cwd args = .ok (some (assemble env r d cwd args links))) := by
  have hskip : ∀ (env : Env) (d dn : Str) (acc : Str × List Str × List (Str × Str))
      (lp : Str × Str) (e : String), env.get lp.1 = .error e →
      downloadStep env d dn acc lp = acc := by
    intro env d dn acc lp e h
    simp [downloadStep, download_media, Bind.bind, Except.bind, h]
  refine ⟨?_, ?_, ?_⟩
  · intro env d dn init pairs
    induction pairs generalizing init with
    | nil => rfl
    | cons p ps ih =>
      cases hp : env.get p.1 with
      | error e =>
        have hok : (env.get p.1).isOk = false := by rw [hp]; rfl
        rw [List.foldl_cons, hskip env d dn init p e hp, List.filter_cons,
          hok]
        simp only [Bool.false_eq_true, if_false]
        exact ih init
      | ok r =>
        have hok : (env.get p.1).isOk = true := by rw [hp]; rfl
        rw [List.foldl_cons, List.filter_cons, hok]
        simp only [if_true]
        rw [List.foldl_cons]
        exact ih (downloadStep env d dn init p)
  · intro env d dn acc link rel e h
    exact hskip env d dn acc (link, rel) e h
  · intro env url d cwd args r links h1 h2 h3
    simp [copy_page, Bind.bind, Except.bind, h1, h2, h3, Functor.map, Except.map]
    rfl

/-- C7 witness: the three parts of `C7_thm` at the `envOneGood` scenario -
a loop over a failing and a succeeding pair equals the loop over the
filtered list, a failing step keeps its accumulator, and the page completes. -/
theorem C7_witness :
    ([(str "bad", str "B"), (str "ok", str "O")].foldl
        (downloadStep envOneGood (str "/d") (str "d")) (str "page", [], []) =
      ([(str "bad", str "B"), (str "ok", str "O")].filter
          (fun lp => (envOneGood.get lp.1).isOk)).foldl
        (downloadStep envOneGood (str "/d") (str "d")) (str "page", [], [])) ∧
    downloadStep envOneGood (str "/d") (str "d") (str "page", [], [])
      (str "bad", str "B") = (str "page", [], []) ∧
    copy_page envOneGood (str "ok") (str "/d") (str "/") argsPlain =
      .ok (some (assemble envOneGood ⟨200, str "ok", str "B"⟩ (str "/d") (str "/")
        argsPlain [])) :=
  ⟨C7_thm.1 envOneGood (str "/d") (str "d") (str "page", [], [])
      [(str "bad", str "B"), (str "ok", str "O")],
   C7_thm.2.1 envOneGood (str "/d") (str "d") (str "page", [], [])
      (str "bad") (str "B") "Timeout" rfl,
   C7_thm.2.2 envOneGood (str "ok") (str "/d") (str "/") argsPlain
      ⟨200, str "ok", str "B"⟩ [] rfl rfl rfl⟩

/-! ### Claim C8 -/

theorem slashToUnderscore_qcons (q : Str) (hq : '/' ∉ q) :
    slashToUnderscore ('?' :: q) = '?' :: q := by
  show (if '?' = '/' then '_' else '?') :: slashToUnderscore q = '?' :: q
  rw [if_neg (by decide), slashToUnderscore_no_slash q hq]

/-- C8: filename derivation.  For a URL `scheme://seg1/…/segn` (scheme
without colons; segments non-empty, without slashes or question marks) the
derived filename is the underscore-joined segments; with a trailing query
`?q` (non-empty, no slash, no question mark) the query is stripped exactly
when the flattened name ends in `.css` or `.js`, and kept verbatim
otherwise.  The two spec examples are included verbatim. -/
theorem C8_thm :
    (∀ (scheme : Str) (segs : List Str), ':' ∉ scheme → segs ≠ [] →
      (∀ s ∈ segs, s ≠ [] ∧ '/' ∉ s ∧ '?' ∉ s) →
      get_usable_filename_from_url (scheme ++ str "://" ++ joinSep (str "/") segs) =
        joinSep (str "_") segs) ∧
    (∀ (scheme : Str) (segs : List Str) (q : Str), ':' ∉ scheme → segs ≠ [] →
      (∀ s ∈ segs, s ≠ [] ∧ '/' ∉ s ∧ '?' ∉ s) →
      q ≠ [] → '/' ∉ q → '?' ∉ q →
      get_usable_filename_from_url
        (scheme ++ str "://" ++ joinSep (str "/") segs ++ '?' :: q) =
        (if ((str ".css").isSuffixOf (joinSep (str "_") segs) = true ∨
             (str ".js").isSuffixOf (joinSep (str "_") segs) = true)
         then joinSep (str "_") segs
         else joinSep (str "_") segs ++ '?' :: q)) ∧
    get_usable_filename_from_url (str "https://x.com/css/app.css?v=2") =
      str "x.com_css_app.css" ∧
    get_usable_filename_from_url (str "https://x.com/img/a.jpg?v=2") =
      str "x.com_img_a.jpg?v=2" := by
  refine ⟨?_, ?_, by decide, by decide⟩
  · intro scheme segs hc hne hall
    match segs, hne with
    | s0 :: rest, _ =>
      have hs0 := hall s0 (List.mem_cons_self s0 rest)
      have hheadne : (joinSep (str "/") (s0 :: rest)).head? ≠ some '/' := by
        rw [joinSep_head? (str "/") s0 rest hs0.1]
        match s0, hs0.1 with
        | c :: cs, _ =>
          intro hcon
          have hcslash : c = '/' := by simpa using hcon
          exact hs0.2.1 (hcslash ▸ List.mem_cons_self c cs)
      have hlastne : (joinSep (str "/") (s0 :: rest)).getLast? ≠ some '/' := by
        intro hcon
        obtain ⟨s, hsmem, hcmem⟩ := joinSep_getLast_mem (str "/") (s0 :: rest)
          (by simp) (fun s hs => (hall s hs).1) '/' hcon
        exact (hall s hsmem).2.1 hcmem
      have hshape : scheme ++ str "://" ++ joinSep (str "/") (s0 :: rest) =
          scheme ++ ':' :: ('/' :: '/' :: joinSep (str "/") (s0 :: rest)) := by
        rw [List.append_assoc]
        rfl
      have hqF : '?' ∉ joinSep (str "_") (s0 :: rest) :=
        joinSep_not_mem (str "_") '?' (s0 :: rest) (by decide)
          (fun s hs => (hall s hs).2.2)
      simp only [get_usable_filename_from_url]
      rw [hshape, cutScheme_append scheme _ hc,
        stripSlashes_dslash _ hheadne hlastne,
        slashToUnderscore_joinSlash (s0 :: rest) (fun s hs => (hall s hs).2.1),
        stripQAux_no_q (str ".css") _ [] hqF]
      simp only [List.nil_append]
      rw [stripQAux_no_q (str ".js") _ [] hqF]
      simp
  · intro scheme segs q hc hne hall hq hql hqm
    match segs, hne with
    | s0 :: rest, _ =>
      have hs0 := hall s0 (List.mem_cons_self s0 rest)
      have hJne : joinSep (str "/") (s0 :: rest) ≠ [] :=
        joinSep_ne_nil (str "/") s0 rest hs0.1
      have hheadne : (joinSep (str "/") (s0 :: rest) ++ '?' :: q).head? ≠ some '/' := by
        have hng : (joinSep (str "/") (s0 :: rest) ++ '?' :: q).head? =
            (joinSep (str "/") (s0 :: rest)).head? := by
          match joinSep (str "/") (s0 :: rest), hJne with
          | c :: j', _ => rfl
        rw [hng, joinSep_head? (str "/") s0 rest hs0.1]
        match s0, hs0.1 with
        | c :: cs, _ =>
          intro hcon
          have hcslash : c = '/' := by simpa using hcon
          exact hs0.2.1 (hcslash ▸ List.mem_cons_self c cs)
      have hlastne : (joinSep (str "/") (s0 :: rest) ++ '?' :: q).getLast? ≠
          some '/' := by
        rw [List.getLast?_append_of_ne_nil _ (by simp)]
        have hq2 : ('?' :: q).getLast? = q.getLast? := by
          match q, hq with
          | c :: q', _ => exact List.getLast?_cons_cons
        rw [hq2]
        intro hcon
        exact hql (List.mem_of_mem_getLast? hcon)
      have hshape : scheme ++ str "://" ++ joinSep (str "/") (s0 :: rest) ++ '?' :: q =
          scheme ++ ':' ::
            ('/' :: '/' :: (joinSep (str "/") (s0 :: rest) ++ '?' :: q)) := by
        rw [List.append_assoc, List.append_assoc]
        rfl
      have hmapq : slashToUnderscore (joinSep (str "/") (s0 :: rest) ++ '?' :: q) =
          joinSep (str "_") (s0 :: rest) ++ '?' :: q := by
        rw [slashToUnderscore_append,
          slashToUnderscore_joinSlash (s0 :: rest) (fun s hs => (hall s hs).2.1),
          slashToUnderscore_qcons q hql]
      have hqF : '?' ∉ joinSep (str "_") (s0 :: rest) :=
        joinSep_not_mem (str "_") '?' (s0 :: rest) (by decide)
          (fun s hs => (hall s hs).2.2)
      simp only [get_usable_filename_from_url]
      rw [hshape, cutScheme_append scheme _ hc,
        stripSlashes_dslash _ hheadne hlastne, hmapq,
        stripQAux_q (str ".css") (joinSep (str "_") (s0 :: rest)) [] q hqF hq hql hqm]
      simp only [List.nil_append]
      by_cases hcss : (str ".css").isSuffixOf (joinSep (str "_") (s0 :: rest)) = true
      · rw [if_pos hcss, stripQAux_no_q (str ".js") _ [] hqF,
          if_pos (Or.inl hcss)]
        simp
      · rw [if_neg hcss,
          stripQAux_q (str ".js") (joinSep (str "_") (s0 :: rest)) [] q hqF hq hql hqm]
        simp only [List.nil_append]
        by_cases hjs : (str ".js").isSuffixOf (joinSep (str "_") (s0 :: rest)) = true
        · rw [if_pos hjs, if_pos (Or.inr hjs)]
        · rw [if_neg hjs, if_neg (fun hcon => hcon.elim hcss hjs)]

/-- C8 witness: both general parts of `C8_thm` applied to concrete URLs
(a no-query URL and a `.css` URL with a cache-busting query). -/
theorem C8_witness :
    get_usable_filename_from_url
      (str "https" ++ str "://" ++ joinSep (str "/") [str "x.com", str "a"]) =
      joinSep (str "_") [str "x.com", str "a"] ∧
    get_usable_filename_from_url
      (str "https" ++ str "://" ++ joinSep (str "/") [str "x.com", str "app.css"] ++
        '?' :: str "v=2") =
      (if ((str ".css").isSuffixOf (joinSep (str "_") [str "x.com", str "app.css"]) = true ∨
           (str ".js").isSuffixOf (joinSep (str "_") [str "x.com", str "app.css"]) = true)
       then joinSep (str "_") [str "x.com", str "app.css"]
       else joinSep (str "_") [str "x.com", str "app.css"] ++ '?' :: str "v=2") :=
  ⟨C8_thm.1 (str "https") [str "x.com", str "a"] (by decide) (by decide) (by decide),
   C8_thm.2.1 (str "https") [str "x.com", str "app.css"] (str "v=2") (by decide)
     (by decide) (by decide) (by decide) (by decide) (by decide)⟩

/-! ### Claim C9 -/

/-- C9: the ignore filter.  When the supplied pattern fails to compile the
whole run behaves exactly as if no ignore pattern had been given (fail-open,
nothing dropped, run not aborted); when it compiles, a pair survives the
filter exactly when its original reference text does not match, so every
matching pair is dropped before the download/rewrite loop (which `copy_page`
runs on the filter's output). -/
theorem C9_thm :
    (∀ (env : Env) (url d cwd : Str) (ij z : Bool) (pat : Str),
      env.regexCompile pat = none →
      copy_page env url d cwd ⟨ij, z, some pat⟩ =
        copy_page env url d cwd ⟨ij, z, none⟩) ∧
    (∀ (rc : Str → Option (Str → Bool)) (pat : Str) (search : Str → Bool)
      (links : List (Str × Str)) (p : Str × Str), rc pat = some search →
      (p ∈ applyIgnore rc (some pat) links ↔ p ∈ links ∧ search p.2 = false)) := by
  constructor
  · intro env url d cwd ij z pat h
    cases hg : env.get url with
    | error e => simp [copy_page, Bind.bind, Except.bind, hg]
    | ok r =>
      have hcl : collect_links env r ⟨ij, z, some pat⟩ =
          collect_links env r ⟨ij, z, none⟩ := rfl
      have hass : ∀ links, assemble env r d cwd ⟨ij, z, some pat⟩ links =
          assemble env r d cwd ⟨ij, z, none⟩ links := by
        intro links
        simp [assemble, applyIgnore, h]
      by_cases hs : r.status = 200
      · simp only [copy_page, Bind.bind, Except.bind, hg, hs]
        cases hc : collect_links env r ⟨ij, z, none⟩ with
        | error e =>
          rw [hcl, hc]
        | ok links =>
          rw [hcl, hc]
          simp [Functor.map, Except.map, hass]
      · simp [copy_page, Bind.bind, Except.bind, hg, hs]
  · intro rc pat search links p h
    simp [applyIgnore, h, List.mem_filter, Bool.not_eq_true']

/-- C9 witness: `C9_thm` applied to a pattern the capability fails to
compile (whole-run no-op) and to a compiled pattern dropping the matching
pair. -/
theorem C9_witness :
    copy_page envOneGood (str "ok") (str "/d") (str "/") ⟨false, false, some (str "x")⟩ =
      copy_page envOneGood (str "ok") (str "/d") (str "/") ⟨false, false, none⟩ ∧
    ((str "A", str "drop") ∈ applyIgnore rcDropOnly (some (str "drop"))
        [(str "A", str "drop"), (str "B", str "keep")] ↔
      (str "A", str "drop") ∈ [(str "A", str "drop"), (str "B", str "keep")] ∧
        (fun (s : Str) => (s = str "drop" : Bool)) (str "A", str "drop").2 = false) :=
  ⟨C9_thm.1 envOneGood (str "ok") (str "/d") (str "/") false false (str "x") rfl,
   C9_thm.2 rcDropOnly (str "drop") (fun s => (s = str "drop" : Bool))
     [(str "A", str "drop"), (str "B", str "keep")] (str "A", str "drop") rfl⟩

/-! ### Claim C10 -/

/-- C10: the streaming download never inspects the status code.  Whenever
the resource fetch obtains a response - of any status, 404 included -
`download_media` writes the body to the destination and returns normally,
and the download loop consequently treats the resource as a success: it
substitutes `./<filename>` for the original text and records the file both
for packaging and as a write. -/
theorem C10_thm :
    (∀ (get : Str → Except String FetchResult) (url dest : Str) (r : FetchResult),
      get url = .ok r → download_media get url dest = .ok (dest, r.content)) ∧
    (∀ (env : Env) (d dn page : Str) (created : List Str)
      (writes : List (Str × Str)) (link rel : Str) (r : FetchResult),
      env.get link = .ok r →
      downloadStep env d dn (page, created, writes) (link, rel) =
        (replaceAll rel (pathJoin (str ".") (get_usable_filename_from_url link)) page,
         created ++ [pathJoin dn (get_usable_filename_from_url link)],
         writes ++ [(pathJoin d (get_usable_filename_from_url link), r.content)])) := by
  constructor
  · intro get url dest r h
    simp [download_media, Bind.bind, Except.bind, h]
    rfl
  · intro env d dn page created writes link rel r h
    simp [downloadStep, download_media, Bind.bind, Except.bind, h]
    rfl

/-- C10 witness: `C10_thm` applied to the all-404 environment `env404`: the
404 body is written and the resource is treated as successfully downloaded. -/
theorem C10_witness :
    download_media env404.get (str "u") (str "/d/u") =
      .ok (str "/d/u", str "NotFound") ∧
    downloadStep env404 (str "/d") (str "d") (str "P", [], []) (str "u", str "R") =
      (replaceAll (str "R") (pathJoin (str ".") (get_usable_filename_from_url (str "u")))
        (str "P"),
       [] ++ [pathJoin (str "d") (get_usable_filename_from_url (str "u"))],
       [] ++ [(pathJoin (str "/d") (get_usable_filename_from_url (str "u")),
         str "NotFound")]) :=
  ⟨C10_thm.1 env404.get (str "u") (str "/d/u") ⟨404, str "nf", str "NotFound"⟩ rfl,
   C10_thm.2 env404 (str "/d") (str "d") (str "P") [] [] (str "u") (str "R")
     ⟨404, str "nf", str "NotFound"⟩ rfl⟩

end Scraper
